import Mathlib

/-!
Verification of the `did:jwk` DID method core (`did/jwk.go`).

Go strings and byte slices are modelled as `List Nat` of byte values;
ASCII literals of the source are injected with `gs`.  The external
collaborators the source leans on (`encoding/base64` RawURLEncoding,
the JSON decoder, `strings.HasPrefix` / `strings.CutPrefix`) are embedded
at byte level with their documented behaviour.  Repository types that are
not part of this core (`jwx.PublicKeyJWK`, the generic `Document` schema,
the key-type tags and the fixed context / suite constants) are modelled
from the spec, as marked on their doc comments.
-/

namespace DidJwk

/-- Byte values of an ASCII string literal (every literal of the source is ASCII). -/
def gs (s : String) : List Nat := s.data.map Char.toNat

/-- strings.CutPrefix: drops `p` from the front of `s`, or fails. -/
def cutPre : List Nat → List Nat → Option (List Nat)
  | [], s => some s
  | _ :: _, [] => none
  | p :: ps, c :: cs => if p = c then cutPre ps cs else none

/-- strings.HasPrefix. -/
def hasPre (p s : List Nat) : Bool := (cutPre p s).isSome

/-- base64url alphabet: sextet value to ASCII byte. -/
def sextetByte (s : Nat) : Nat :=
  if s < 26 then 65 + s
  else if s < 52 then 97 + (s - 26)
  else if s < 62 then 48 + (s - 52)
  else if s = 62 then 45
  else 95

/-- ASCII byte to sextet value; `none` for bytes outside the base64url alphabet. -/
def byteSextet (b : Nat) : Option Nat :=
  if 65 ≤ b ∧ b ≤ 90 then some (b - 65)
  else if 97 ≤ b ∧ b ≤ 122 then some (26 + (b - 97))
  else if 48 ≤ b ∧ b ≤ 57 then some (52 + (b - 48))
  else if b = 45 then some 62
  else if b = 95 then some 63
  else none

/-- base64.RawURLEncoding.EncodeToString: unpadded base64url over bytes. -/
def b64Encode : List Nat → List Nat
  | a :: b :: c :: rest =>
      sextetByte (a / 4) :: sextetByte (a % 4 * 16 + b / 16) ::
        sextetByte (b % 16 * 4 + c / 64) :: sextetByte (c % 64) :: b64Encode rest
  | [a, b] => [sextetByte (a / 4), sextetByte (a % 4 * 16 + b / 16), sextetByte (b % 16 * 4)]
  | [a] => [sextetByte (a / 4), sextetByte (a % 4 * 16)]
  | [] => []

/-- Decoding of the newline-filtered input in four-character quanta; a final
quantum of three or two characters yields two or one bytes (extra trailing
bits are ignored, as Go's non-strict decoder does), a single leftover
character is an error. -/
def b64DecodeQuanta : List Nat → Option (List Nat)
  | c1 :: c2 :: c3 :: c4 :: rest => do
      let s1 ← byteSextet c1
      let s2 ← byteSextet c2
      let s3 ← byteSextet c3
      let s4 ← byteSextet c4
      let tail ← b64DecodeQuanta rest
      pure ((s1 * 4 + s2 / 16) :: (s2 % 16 * 16 + s3 / 4) :: (s3 % 4 * 64 + s4) :: tail)
  | [c1, c2, c3] => do
      let s1 ← byteSextet c1
      let s2 ← byteSextet c2
      let s3 ← byteSextet c3
      pure [s1 * 4 + s2 / 16, s2 % 16 * 16 + s3 / 4]
  | [c1, c2] => do
      let s1 ← byteSextet c1
      let s2 ← byteSextet c2
      pure [s1 * 4 + s2 / 16]
  | [_] => none
  | [] => some []

/-- base64.RawURLEncoding.DecodeString: Go's decoder skips carriage returns
and newlines before processing the quanta. -/
def b64Decode (cs : List Nat) : Option (List Nat) :=
  b64DecodeQuanta (cs.filter fun c => !(c == 10 || c == 13))

/-- JSON values as the goccy/go-json decoder classifies them.  Number tokens
keep their raw bytes: no consumer in this core looks at a numeric value. -/
inductive JSON where
  | null
  | bool (b : Bool)
  | num (raw : List Nat)
  | str (s : List Nat)
  | arr (elems : List JSON)
  | obj (members : List (List Nat × JSON))

/-- JSON insignificant whitespace bytes. -/
def isWs (b : Nat) : Bool := b == 32 || b == 9 || b == 10 || b == 13

/-- Drops leading JSON whitespace. -/
def skipWs : List Nat → List Nat
  | b :: rest => if isWs b then skipWs rest else b :: rest
  | [] => []

/-- Value of one hexadecimal digit byte. -/
def hexVal (b : Nat) : Option Nat :=
  if 48 ≤ b ∧ b ≤ 57 then some (b - 48)
  else if 97 ≤ b ∧ b ≤ 102 then some (10 + (b - 97))
  else if 65 ≤ b ∧ b ≤ 70 then some (10 + (b - 65))
  else none

/-- Lower-case hexadecimal digit byte of a value below 16. -/
def hexDigit (n : Nat) : Nat := if n < 10 then 48 + n else 97 + (n - 10)

/-- UTF-8 byte sequence of a code point. -/
def utf8Encode (v : Nat) : List Nat :=
  if v < 128 then [v]
  else if v < 2048 then [192 + v / 64, 128 + v % 64]
  else if v < 65536 then [224 + v / 4096, 128 + v / 64 % 64, 128 + v % 64]
  else [240 + v / 262144, 128 + v / 4096 % 64, 128 + v / 64 % 64, 128 + v % 64]

/-- Body of a JSON string after the opening quote: returns the unescaped
bytes and the input following the closing quote.  Escape sequences are
decoded and the code point re-encoded as UTF-8; raw control bytes are a
syntax error, as in encoding/json. -/
def parseStringBody : List Nat → Option (List Nat × List Nat)
  | [] => none
  | 34 :: rest => some ([], rest)
  | 92 :: 117 :: h1 :: h2 :: h3 :: h4 :: rest => do
      let v1 ← hexVal h1
      let v2 ← hexVal h2
      let v3 ← hexVal h3
      let v4 ← hexVal h4
      let sr ← parseStringBody rest
      pure (utf8Encode (v1 * 4096 + v2 * 256 + v3 * 16 + v4) ++ sr.1, sr.2)
  | 92 :: e :: rest => do
      let b ← (match e with
        | 34 => some 34
        | 92 => some 92
        | 47 => some 47
        | 98 => some 8
        | 102 => some 12
        | 110 => some 10
        | 114 => some 13
        | 116 => some 9
        | _ => none)
      let sr ← parseStringBody rest
      pure (b :: sr.1, sr.2)
  | b :: rest =>
      if b < 32 then none
      else do
        let sr ← parseStringBody rest
        pure (b :: sr.1, sr.2)

/-- Longest run of decimal digit bytes at the front. -/
def digitRun : List Nat → List Nat × List Nat
  | b :: rest =>
      if 48 ≤ b ∧ b ≤ 57 then
        let dr := digitRun rest
        (b :: dr.1, dr.2)
      else ([], b :: rest)
  | [] => ([], [])

/-- Optional fraction part of a JSON number. -/
def parseFrac : List Nat → Option (List Nat × List Nat)
  | 46 :: rest =>
      (match digitRun rest with
       | ([], _) => none
       | (ds, r) => some (46 :: ds, r))
  | bs => some ([], bs)

/-- Optional exponent part of a JSON number. -/
def parseExp : List Nat → Option (List Nat × List Nat)
  | e :: rest =>
      if e = 101 ∨ e = 69 then
        let sr : List Nat × List Nat :=
          (match rest with
           | 43 :: r => ([43], r)
           | 45 :: r => ([45], r)
           | r => ([], r))
        (match digitRun sr.2 with
         | ([], _) => none
         | (ds, r) => some (e :: sr.1 ++ ds, r))
      else some ([], e :: rest)
  | [] => some ([], [])

/-- JSON number token (RFC 8259 grammar: an optional minus, an integer part
with no leading zero, optional fraction and exponent). -/
def parseNumber (bs : List Nat) : Option (List Nat × List Nat) :=
  let mr : List Nat × List Nat :=
    (match bs with
     | 45 :: r => ([45], r)
     | r => ([], r))
  match mr.2 with
  | 48 :: rest1 => do
      let fr ← parseFrac rest1
      let er ← parseExp fr.2
      pure (mr.1 ++ 48 :: fr.1 ++ er.1, er.2)
  | d :: rest1 =>
      if 49 ≤ d ∧ d ≤ 57 then do
        let dr : List Nat × List Nat := digitRun rest1
        let fr ← parseFrac dr.2
        let er ← parseExp fr.2
        pure (mr.1 ++ d :: dr.1 ++ fr.1 ++ er.1, er.2)
      else none
  | [] => none

mutual

/-- One JSON value by recursive descent; `fuel` bounds the recursion and is
instantiated generously at the top entry so that it never runs out before
the input does. -/
def parseValue : Nat → List Nat → Option (JSON × List Nat)
  | 0, _ => none
  | fuel + 1, bs =>
    match skipWs bs with
    | 110 :: 117 :: 108 :: 108 :: rest => some (.null, rest)
    | 116 :: 114 :: 117 :: 101 :: rest => some (.bool true, rest)
    | 102 :: 97 :: 108 :: 115 :: 101 :: rest => some (.bool false, rest)
    | 34 :: rest => do
        let sr ← parseStringBody rest
        pure (.str sr.1, sr.2)
    | 123 :: rest =>
        (match skipWs rest with
         | 125 :: r2 => some (.obj [], r2)
         | r2 => parseMembers fuel [] r2)
    | 91 :: rest =>
        (match skipWs rest with
         | 93 :: r2 => some (.arr [], r2)
         | r2 => parseItems fuel [] r2)
    | other => do
        let nr ← parseNumber other
        pure (.num nr.1, nr.2)

/-- Members of a JSON object, positioned at the start of a key string. -/
def parseMembers : Nat → List (List Nat × JSON) → List Nat → Option (JSON × List Nat)
  | 0, _, _ => none
  | fuel + 1, acc, bs =>
    match bs with
    | 34 :: rest => do
        let kr ← parseStringBody rest
        match skipWs kr.2 with
        | 58 :: r2 => do
            let vr ← parseValue fuel r2
            match skipWs vr.2 with
            | 44 :: r4 => parseMembers fuel (acc ++ [(kr.1, vr.1)]) (skipWs r4)
            | 125 :: r4 => some (.obj (acc ++ [(kr.1, vr.1)]), r4)
            | _ => none
        | _ => none
    | _ => none

/-- Elements of a JSON array, positioned at the start of a value. -/
def parseItems : Nat → List JSON → List Nat → Option (JSON × List Nat)
  | 0, _, _ => none
  | fuel + 1, acc, bs => do
      let vr ← parseValue fuel bs
      match skipWs vr.2 with
      | 44 :: r2 => parseItems fuel (acc ++ [vr.1]) (skipWs r2)
      | 93 :: r2 => some (.arr (acc ++ [vr.1]), r2)
      | _ => none

end

/-- Whole-input JSON parse: one value, then nothing but whitespace, as
json.Unmarshal requires.  The fuel is generous: every recursive step either
consumes input or alternates with one that does, so twice the length plus
two can never be exhausted on a well-formed input. -/
def parseJSONTop (bs : List Nat) : Option JSON :=
  match parseValue (2 * bs.length + 2) bs with
  | some (v, rest) => if skipWs rest = [] then some v else none
  | none => none

/-- Modelled from the spec: the key-type-agnostic public-key representation
(`jwx.PublicKeyJWK`, defined outside this core): algorithm family (`kty`),
curve (`crv`) and coordinate (`x`, `y`) or modulus (`n`) and exponent (`e`)
parameters, and the optional key-usage hint (`use`).  All fields are strings
and an absent field is the empty string. -/
structure PublicKeyJWK where
  kty : List Nat := []
  crv : List Nat := []
  x : List Nat := []
  y : List Nat := []
  n : List Nat := []
  e : List Nat := []
  use : List Nat := []
deriving DecidableEq

/-- ASCII lower-casing of one byte, for encoding/json's case-insensitive
field-name match. -/
def lowerByte (b : Nat) : Nat := if 65 ≤ b ∧ b ≤ 90 then b + 32 else b

/-- ASCII lower-casing of a name. -/
def lowerName (s : List Nat) : List Nat := s.map lowerByte

/-- encoding/json semantics for a string-typed struct field: a JSON string
assigns it, `null` leaves the current value, any other value is a type
error. -/
def setStrField (v : JSON) (cur : List Nat) : Option (List Nat) :=
  match v with
  | .str s => some s
  | .null => some cur
  | _ => none

/-- Applies one object member to the struct: known field names (matched
case-insensitively) must carry string values, unknown members are ignored. -/
def applyMember (k : PublicKeyJWK) (name : List Nat) (v : JSON) : Option PublicKeyJWK :=
  let nm := lowerName name
  if nm = gs "kty" then (setStrField v k.kty).map fun s => { k with kty := s }
  else if nm = gs "crv" then (setStrField v k.crv).map fun s => { k with crv := s }
  else if nm = gs "x" then (setStrField v k.x).map fun s => { k with x := s }
  else if nm = gs "y" then (setStrField v k.y).map fun s => { k with y := s }
  else if nm = gs "n" then (setStrField v k.n).map fun s => { k with n := s }
  else if nm = gs "e" then (setStrField v k.e).map fun s => { k with e := s }
  else if nm = gs "use" then (setStrField v k.use).map fun s => { k with use := s }
  else some k

/-- Applies the members in order; a later duplicate overwrites an earlier
one, as encoding/json does. -/
def applyMembers : PublicKeyJWK → List (List Nat × JSON) → Option PublicKeyJWK
  | k, [] => some k
  | k, (nm, v) :: rest => do
      let k2 ← applyMember k nm v
      applyMembers k2 rest

/-- json.Unmarshal of bytes into a zero `PublicKeyJWK`: the top-level value
must be an object (or `null`, which keeps the zero value); anything else is
an error. -/
def unmarshalJWK (bs : List Nat) : Option PublicKeyJWK :=
  match parseJSONTop bs with
  | some (.obj ms) => applyMembers {} ms
  | some .null => some {}
  | _ => none

/-- JSON string escaping of a byte sequence: quote, backslash and control
bytes are escaped, everything else passes through. -/
def jsonEscape : List Nat → List Nat
  | [] => []
  | b :: rest =>
      (if b = 34 then [92, 34]
       else if b = 92 then [92, 92]
       else if b < 32 then [92, 117, 48, 48, hexDigit (b / 16), hexDigit (b % 16)]
       else [b]) ++ jsonEscape rest

/-- One rendered object member: a quoted name, a colon, a quoted escaped
value. -/
def renderMember (p : List Nat × List Nat) : List Nat :=
  [34] ++ p.1 ++ [34, 58, 34] ++ jsonEscape p.2 ++ [34]

/-- Comma-separated rendering of the members. -/
def renderMembers : List (List Nat × List Nat) → List Nat
  | [] => []
  | [p] => renderMember p
  | p :: rest => renderMember p ++ [44] ++ renderMembers rest

/-- The present (non-empty) fields of a key object, in declaration order. -/
def fieldsOf (k : PublicKeyJWK) : List (List Nat × List Nat) :=
  (if k.kty = [] then [] else [(gs "kty", k.kty)]) ++
  (if k.crv = [] then [] else [(gs "crv", k.crv)]) ++
  (if k.x = [] then [] else [(gs "x", k.x)]) ++
  (if k.y = [] then [] else [(gs "y", k.y)]) ++
  (if k.n = [] then [] else [(gs "n", k.n)]) ++
  (if k.e = [] then [] else [(gs "e", k.e)]) ++
  (if k.use = [] then [] else [(gs "use", k.use)])

/-- Modelled from the spec: the canonical, stable JSON serialization of the
public-key object (performed outside this core by the JWK library): one
object whose members are the present fields in a fixed order. -/
def marshalJWK (k : PublicKeyJWK) : List Nat :=
  [123] ++ renderMembers (fieldsOf k) ++ [125]

/-- A key object whose fields are genuine byte strings (every element is a
byte).  This is the validity the round-trip property quantifies over. -/
def ValidJWK (k : PublicKeyJWK) : Prop :=
  (∀ b ∈ k.kty, b < 256) ∧ (∀ b ∈ k.crv, b < 256) ∧ (∀ b ∈ k.x, b < 256) ∧
  (∀ b ∈ k.y, b < 256) ∧ (∀ b ∈ k.n, b < 256) ∧ (∀ b ∈ k.e, b < 256) ∧
  (∀ b ∈ k.use, b < 256)

instance (k : PublicKeyJWK) : Decidable (ValidJWK k) := by
  unfold ValidJWK
  infer_instance

/-- JWKPrefix, the `did:jwk` scheme token. -/
def JWKPrefix : List Nat := gs "did:jwk"

/-- JWS2020Context. -/
def JWS2020Context : List Nat := gs "https://w3id.org/security/suites/jws-2020/v1"

/-- Modelled from the spec: the standard DID context constant
(`KnownDIDContext`, defined outside this core). -/
def KnownDIDContext : List Nat := gs "https://www.w3.org/ns/did/v1"

/-- Modelled from the spec: the fixed cryptographic-suite type tag for
JSON-Web-Key-based verification methods (`cryptosuite.JSONWebKey2020Type`). -/
def JSONWebKey2020Type : List Nat := gs "JsonWebKey2020"

/-- Modelled from the spec: the method tag this core registers (`JWKMethod`). -/
def JWKMethod : List Nat := gs "jwk"

/-- A did:jwk identifier is an opaque string. -/
abbrev DIDJWK := List Nat

/-- Modelled from the spec: one verification-method entry of the generic
document schema (defined outside this core), restricted to the fields this
core populates. -/
structure VerificationMethod where
  id : List Nat
  type : List Nat
  controller : List Nat
  publicKeyJWK : PublicKeyJWK
deriving DecidableEq

/-- Modelled from the spec: the generic identity-document schema (defined
outside this core): a context list, the id, the verification-method list and
the five purpose-relation lists, each either populated (`some`) or entirely
absent (`none`, a nil slice in the host language). -/
structure Document where
  context : List (List Nat)
  id : List Nat
  verificationMethod : List VerificationMethod
  authentication : Option (List (List Nat))
  assertionMethod : Option (List (List Nat))
  keyAgreement : Option (List (List Nat))
  capabilityInvocation : Option (List (List Nat))
  capabilityDelegation : Option (List (List Nat))
deriving DecidableEq

/-- The distinct error shapes `DIDJWK.Expand` returns, one per validation
gate, each carrying the offending identifier as the Go error messages do. -/
inductive JWKError where
  | invalidPre (id : List Nat)
  | readingSuffix (id : List Nat)
  | decodingDIDJWK (id : List Nat)
  | unmarshallingDIDJWK (id : List Nat)
deriving DecidableEq

/-- DIDJWK.Suffix: the value after the `did:jwk` scheme and its colon. -/
def Suffix (d : DIDJWK) : Option (List Nat) := cutPre (JWKPrefix ++ gs ":") d

/-- The document `Expand` builds once the key object is decoded
(lines 115-146 of the source): the fixed contexts, a single
verification method under the constant `#0` fragment, all five purpose
lists referencing it, then the usage-hint override on `use`. -/
def buildDoc (id : DIDJWK) (pubKeyJWK : PublicKeyJWK) : Document :=
  let keyID := id ++ gs "#0"
  let doc : Document :=
    { context := [KnownDIDContext, JWS2020Context]
      id := id
      verificationMethod := [{ id := keyID, type := JSONWebKey2020Type,
                               controller := id, publicKeyJWK := pubKeyJWK }]
      authentication := some [keyID]
      assertionMethod := some [keyID]
      keyAgreement := some [keyID]
      capabilityInvocation := some [keyID]
      capabilityDelegation := some [keyID] }
  if pubKeyJWK.use = gs "sig" then { doc with keyAgreement := none }
  else if pubKeyJWK.use = gs "enc" then
    { doc with authentication := none, assertionMethod := none,
               capabilityInvocation := none, capabilityDelegation := none }
  else doc

/-- DIDJWK.Expand: the scheme check, the suffix cut, the base64url decode,
the JSON unmarshal, then the document construction. -/
def Expand (d : DIDJWK) : Except JWKError Document :=
  if hasPre JWKPrefix d = false then .error (.invalidPre d)
  else
    match Suffix d with
    | none => .error (.readingSuffix d)
    | some encodedJWK =>
      match b64Decode encodedJWK with
      | none => .error (.decodingDIDJWK d)
      | some decodedBytes =>
        match unmarshalJWK decodedBytes with
        | none => .error (.unmarshallingDIDJWK d)
        | some pubKeyJWK => .ok (buildDoc d pubKeyJWK)

/-- The decode pipeline alone (the spec's IdentifierCodec.Decode): suffix
extraction, base64url decode, JSON unmarshal. -/
def decodeKey (d : DIDJWK) : Option PublicKeyJWK := do
  let encodedJWK ← Suffix d
  let decodedBytes ← b64Decode encodedJWK
  unmarshalJWK decodedBytes

/-- DIDJWK.IsValid: expansion succeeds. -/
def IsValid (d : DIDJWK) : Bool :=
  match Expand d with
  | .ok _ => true
  | .error _ => false

/-- CreateDIDJWK: marshal the key object, base64url-encode it, put the
scheme in front.  Marshalling a struct of string fields cannot fail, so the
Go error path is dead and the model is total. -/
def CreateDIDJWK (publicKeyJWK : PublicKeyJWK) : DIDJWK :=
  JWKPrefix ++ gs ":" ++ b64Encode (marshalJWK publicKeyJWK)

/-- Modelled from the spec: the resolution error wrapper (`errors.Wrap`
with the "expanding did:jwk" context). -/
inductive ResolutionError where
  | expandingDIDJWK (e : JWKError)
deriving DecidableEq

/-- Modelled from the spec: the resolution result, restricted to the field
this core populates. -/
structure ResolutionResult where
  document : Document
deriving DecidableEq

/-- JWKResolver.Resolve: the context and options arguments take no part in
the computation, so they are not modelled. -/
def Resolve (did : List Nat) : Except ResolutionError ResolutionResult :=
  match Expand did with
  | .error err => .error (.expandingDIDJWK err)
  | .ok doc => .ok { document := doc }

/-- JWKResolver.Methods. -/
def Methods : List (List Nat) := [JWKMethod]

/-- Modelled from the spec: the key-type tags of the crypto collaborator. -/
def Ed25519 : List Nat := gs "Ed25519"

/-- Modelled from the spec: the X25519 key-type tag. -/
def X25519 : List Nat := gs "X25519"

/-- Modelled from the spec: the secp256k1 key-type tag. -/
def SECP256k1 : List Nat := gs "secp256k1"

/-- Modelled from the spec: the P-256 key-type tag. -/
def P256 : List Nat := gs "P-256"

/-- Modelled from the spec: the P-384 key-type tag. -/
def P384 : List Nat := gs "P-384"

/-- Modelled from the spec: the P-521 key-type tag. -/
def P521 : List Nat := gs "P-521"

/-- Modelled from the spec: the RSA key-type tag. -/
def RSA : List Nat := gs "RSA"

/-- GetSupportedDIDJWKTypes: the fixed seven-member allow-list. -/
def GetSupportedDIDJWKTypes : List (List Nat) :=
  [Ed25519, X25519, SECP256k1, P256, P384, P521, RSA]

/-- isSupportedJWKType: the linear scan over the supported list. -/
def isSupportedJWKType (kt : List Nat) : Bool :=
  GetSupportedDIDJWKTypes.any fun t => t == kt

/-- The error shapes of GenerateDIDJWK: the unsupported-type rejection and
the wrappers around the two external collaborators' failures. -/
inductive GenError (E : Type) where
  | unsupportedType (kt : List Nat)
  | generatingKey (e : E)
  | convertingKey (e : E)

/-- GenerateDIDJWK, with the two external collaborators
(`crypto.GenerateKeyByKeyType` and `jwx.PublicKeyToJWK`) passed in as
oracles: the allow-list gate runs before either oracle is consulted. -/
def GenerateDIDJWK {Pub Priv E : Type} (genKey : List Nat → Except E (Pub × Priv))
    (toJWK : Pub → Except E PublicKeyJWK) (kt : List Nat) :
    Except (GenError E) (Priv × DIDJWK) :=
  if isSupportedJWKType kt = false then .error (.unsupportedType kt)
  else
    match genKey kt with
    | .error e2 => .error (.generatingKey e2)
    | .ok pk =>
      match toJWK pk.1 with
      | .error e2 => .error (.convertingKey e2)
      | .ok pubKeyJWK => .ok (pk.2, CreateDIDJWK pubKeyJWK)

theorem cutPre_append (p s : List Nat) : cutPre p (p ++ s) = some s := by
  induction p with
  | nil => rfl
  | cons a ps ih => simp [cutPre, ih]

theorem cutPre_split (p q s : List Nat) :
    cutPre (p ++ q) s = (cutPre p s).bind (cutPre q) := by
  induction p generalizing s with
  | nil => simp [cutPre]
  | cons a ps ih =>
    cases s with
    | nil => simp [cutPre]
    | cons c cs =>
      by_cases h : a = c
      · simp [cutPre, h, ih]
      · simp [cutPre, h]

theorem hasPre_append (p s : List Nat) : hasPre p (p ++ s) = true := by
  simp [hasPre, cutPre_append]

theorem bs_sb : ∀ s < 64, byteSextet (sextetByte s) = some s := by decide

theorem sextetByte_big : ∀ s, 45 ≤ sextetByte s := by
  intro s
  unfold sextetByte
  split <;> try omega
  split <;> try omega
  split <;> try omega
  split <;> omega

theorem b64Encode_no_newline (bs : List Nat) : ∀ c ∈ b64Encode bs, !(c == 10 || c == 13) := by
  induction bs using b64Encode.induct with
  | case1 a b c rest ih =>
    intro x hx
    simp only [b64Encode, List.mem_cons] at hx
    rcases hx with h | h | h | h | h
    all_goals first
      | (subst h
         have := sextetByte_big (a / 4)
         have := sextetByte_big (a % 4 * 16 + b / 16)
         have := sextetByte_big (b % 16 * 4 + c / 64)
         have := sextetByte_big (c % 64)
         simp
         omega)
      | exact ih x h
  | case2 a b =>
    intro x hx
    simp only [b64Encode, List.mem_cons] at hx
    have := sextetByte_big (a / 4)
    have := sextetByte_big (a % 4 * 16 + b / 16)
    have := sextetByte_big (b % 16 * 4)
    rcases hx with h | h | h | h <;> simp_all <;> omega
  | case3 a =>
    intro x hx
    simp only [b64Encode, List.mem_cons] at hx
    have := sextetByte_big (a / 4)
    have := sextetByte_big (a % 4 * 16)
    rcases hx with h | h | h <;> simp_all <;> omega
  | case4 => intro x hx; simp [b64Encode] at hx

theorem b64DecodeQuanta_encode (bs : List Nat) (h : ∀ b ∈ bs, b < 256) :
    b64DecodeQuanta (b64Encode bs) = some bs := by
  induction bs using b64Encode.induct with
  | case1 a b c rest ih =>
    have ha : a < 256 := h a (by simp)
    have hb : b < 256 := h b (by simp)
    have hc : c < 256 := h c (by simp)
    have h1 : a / 4 < 64 := by omega
    have h2 : a % 4 * 16 + b / 16 < 64 := by omega
    have h3 : b % 16 * 4 + c / 64 < 64 := by omega
    have h4 : c % 64 < 64 := by omega
    have hrest : ∀ x ∈ rest, x < 256 := fun x hx => h x (by simp [hx])
    simp only [b64Encode, b64DecodeQuanta, bs_sb _ h1, bs_sb _ h2, bs_sb _ h3, bs_sb _ h4,
      ih hrest, Option.bind_eq_bind, Option.some_bind, Option.pure_def,
      Option.some.injEq, List.cons.injEq]
    exact ⟨by omega, by omega, by omega, trivial⟩
  | case2 a b =>
    have ha : a < 256 := h a (by simp)
    have hb : b < 256 := h b (by simp)
    have h1 : a / 4 < 64 := by omega
    have h2 : a % 4 * 16 + b / 16 < 64 := by omega
    have h3 : b % 16 * 4 < 64 := by omega
    simp only [b64Encode, b64DecodeQuanta, bs_sb _ h1, bs_sb _ h2, bs_sb _ h3,
      Option.bind_eq_bind, Option.some_bind, Option.pure_def,
      Option.some.injEq, List.cons.injEq]
    exact ⟨by omega, by omega, trivial⟩
  | case3 a =>
    have ha : a < 256 := h a (by simp)
    have h1 : a / 4 < 64 := by omega
    have h2 : a % 4 * 16 < 64 := by omega
    simp only [b64Encode, b64DecodeQuanta, bs_sb _ h1, bs_sb _ h2,
      Option.bind_eq_bind, Option.some_bind, Option.pure_def,
      Option.some.injEq, List.cons.injEq]
    exact ⟨by omega, trivial⟩
  | case4 => simp [b64Encode, b64DecodeQuanta]

theorem b64_roundtrip (bs : List Nat) (h : ∀ b ∈ bs, b < 256) :
    b64Decode (b64Encode bs) = some bs := by
  unfold b64Decode
  rw [List.filter_eq_self.mpr (b64Encode_no_newline bs)]
  exact b64DecodeQuanta_encode bs h

theorem hexVal_hexDigit : ∀ n < 16, hexVal (hexDigit n) = some n := by decide

theorem parseStringBody_escape (v : List Nat) :
    ∀ rest, parseStringBody (jsonEscape v ++ 34 :: rest) = some (v, rest) := by
  induction v with
  | nil => intro rest; simp [jsonEscape, parseStringBody]
  | cons b v ih =>
    intro rest
    by_cases h34 : b = 34
    · subst h34
      simp [jsonEscape, parseStringBody, ih]
    · by_cases h92 : b = 92
      · subst h92
        simp [jsonEscape, parseStringBody, ih]
      · by_cases hc : b < 32
        · have hd1 : b / 16 < 16 := by omega
          have hd2 : b % 16 < 16 := by omega
          have hb128 : b < 128 := by omega
          simp only [jsonEscape, if_pos hc, if_neg h34, if_neg h92, List.cons_append,
            List.nil_append, parseStringBody, hexVal_hexDigit _ hd1, hexVal_hexDigit _ hd2,
            ih rest, Option.bind_eq_bind, Option.some_bind, Option.pure_def]
          have hv : (48 : Nat) - 48 = 0 := rfl
          simp only [hexVal, utf8Encode]
          norm_num
          rw [if_pos (show b / 16 * 16 + b % 16 < 128 by omega)]
          rw [show b / 16 * 16 + b % 16 = b by omega]
          rfl
        · simp [jsonEscape, parseStringBody, h34, h92, hc, ih rest]

theorem parseStringBody_clean (nm : List Nat) (h : ∀ b ∈ nm, 32 ≤ b ∧ b ≠ 34 ∧ b ≠ 92) :
    ∀ rest, parseStringBody (nm ++ 34 :: rest) = some (nm, rest) := by
  induction nm with
  | nil => intro rest; simp [parseStringBody]
  | cons b nm ih =>
    intro rest
    obtain ⟨hb, h34, h92⟩ := h b (by simp)
    have ih2 := ih fun x hx => h x (by simp [hx])
    simp [parseStringBody, h34, h92, ih2, show ¬ b < 32 by omega]

theorem parseValue_string (fuel : Nat) (v rest : List Nat) :
    parseValue (fuel + 1) (34 :: (jsonEscape v ++ 34 :: rest)) = some (.str v, rest) := by
  simp [parseValue, skipWs, isWs, parseStringBody_escape]

theorem renderMembers_head (p : List Nat × List Nat) (fs : List (List Nat × List Nat)) :
    ∃ t, renderMembers (p :: fs) = 34 :: t := by
  cases fs with
  | nil => exact ⟨p.1 ++ [34, 58, 34] ++ jsonEscape p.2 ++ [34],
      by simp [renderMembers, renderMember]⟩
  | cons q fs2 => exact ⟨p.1 ++ [34, 58, 34] ++ jsonEscape p.2 ++ [34] ++ [44] ++
      renderMembers (q :: fs2), by simp [renderMembers, renderMember]⟩

theorem parseMembers_render (fs : List (List Nat × List Nat)) :
    ∀ fuel acc rest, fs.length + 1 ≤ fuel →
      (∀ p ∈ fs, ∀ b ∈ p.1, 32 ≤ b ∧ b ≠ 34 ∧ b ≠ 92) → fs ≠ [] →
      parseMembers fuel acc (renderMembers fs ++ 125 :: rest) =
        some (.obj (acc ++ fs.map fun p => (p.1, JSON.str p.2)), rest) := by
  induction fs with
  | nil => intro fuel acc rest hfuel hclean hne; exact absurd rfl hne
  | cons p fs ih =>
    intro fuel acc rest hfuel hclean hne
    obtain ⟨g, rfl⟩ : ∃ g, fuel = g + 1 := ⟨fuel - 1, by omega⟩
    have hg : 1 ≤ g := by simp at hfuel; omega
    obtain ⟨g2, rfl⟩ : ∃ g2, g = g2 + 1 := ⟨g - 1, by omega⟩
    have hcl := hclean p (by simp)
    cases fs with
    | nil =>
      simp only [renderMembers, renderMember, List.append_assoc, List.cons_append,
        List.nil_append]
      rw [parseMembers]
      rw [parseStringBody_clean p.1 hcl]
      simp only [Option.bind_eq_bind, Option.some_bind]
      rw [show skipWs (58 :: (34 :: (jsonEscape p.2 ++ 34 :: 125 :: rest))) =
        58 :: (34 :: (jsonEscape p.2 ++ 34 :: 125 :: rest)) from by simp [skipWs, isWs]]
      change (parseValue (g2 + 1) (34 :: (jsonEscape p.2 ++ 34 :: 125 :: rest))).bind _ = _
      rw [parseValue_string]
      simp only [Option.some_bind]
      simp [skipWs, isWs]
    | cons q fs2 =>
      simp only [renderMembers, renderMember, List.append_assoc, List.cons_append,
        List.nil_append]
      rw [parseMembers]
      rw [parseStringBody_clean p.1 hcl]
      simp only [Option.bind_eq_bind, Option.some_bind]
      rw [show skipWs (58 :: (34 :: (jsonEscape p.2 ++ 34 :: 44 ::
        (renderMembers (q :: fs2) ++ 125 :: rest)))) = 58 :: (34 :: (jsonEscape p.2 ++
        34 :: 44 :: (renderMembers (q :: fs2) ++ 125 :: rest))) from by simp [skipWs, isWs]]
      change (parseValue (g2 + 1) (34 :: (jsonEscape p.2 ++ 34 :: 44 ::
        (renderMembers (q :: fs2) ++ 125 :: rest)))).bind _ = _
      rw [parseValue_string]
      simp only [Option.some_bind]
      rw [show skipWs (44 :: (renderMembers (q :: fs2) ++ 125 :: rest)) =
        44 :: (renderMembers (q :: fs2) ++ 125 :: rest) from by simp [skipWs, isWs]]
      change parseMembers (g2 + 1) (acc ++ [(p.1, JSON.str p.2)])
        (skipWs (renderMembers (q :: fs2) ++ 125 :: rest)) = _
      obtain ⟨t, ht⟩ := renderMembers_head q fs2
      rw [show skipWs (renderMembers (q :: fs2) ++ 125 :: rest) =
        renderMembers (q :: fs2) ++ 125 :: rest from by rw [ht]; simp [skipWs, isWs]]
      rw [ih (g2 + 1) (acc ++ [(p.1, JSON.str p.2)]) rest (by simp at hfuel ⊢; omega)
        (fun x hx => hclean x (by simp [hx])) (by simp)]
      simp

theorem fieldsOf_sub (k : PublicKeyJWK) :
    ∀ p ∈ fieldsOf k, p ∈ [(gs "kty", k.kty), (gs "crv", k.crv), (gs "x", k.x),
      (gs "y", k.y), (gs "n", k.n), (gs "e", k.e), (gs "use", k.use)] := by
  intro p hp
  unfold fieldsOf at hp
  simp only [List.mem_append] at hp
  rcases hp with ((((((h | h) | h) | h) | h) | h) | h) <;>
    · split at h
      · simp at h
      · simp only [List.mem_singleton] at h
        simp [h]

theorem fieldsOf_clean (k : PublicKeyJWK) :
    ∀ p ∈ fieldsOf k, ∀ b ∈ p.1, 32 ≤ b ∧ b ≠ 34 ∧ b ≠ 92 := by
  intro p hp
  have := fieldsOf_sub k p hp
  simp only [List.mem_cons, List.not_mem_nil, or_false] at this
  rcases this with h | h | h | h | h | h | h <;>
    · subst h
      dsimp only
      decide

theorem renderMembers_len (fs : List (List Nat × List Nat)) :
    fs.length ≤ (renderMembers fs).length := by
  induction fs with
  | nil => simp [renderMembers]
  | cons p fs ih =>
    cases fs with
    | nil => simp [renderMembers, renderMember]
    | cons q fs2 =>
      simp only [renderMembers, renderMember, List.length_append, List.length_cons] at ih ⊢
      omega

theorem parseValue_marshalled (k : PublicKeyJWK) (fuel : Nat) (rest : List Nat)
    (hfuel : (fieldsOf k).length + 2 ≤ fuel) :
    parseValue fuel (marshalJWK k ++ rest) =
      some (.obj ((fieldsOf k).map fun p => (p.1, JSON.str p.2)), rest) := by
  obtain ⟨g, rfl⟩ : ∃ g, fuel = g + 1 := ⟨fuel - 1, by omega⟩
  simp only [marshalJWK, List.append_assoc, List.cons_append, List.nil_append]
  cases hfs : fieldsOf k with
  | nil =>
    simp [renderMembers, parseValue, skipWs, isWs]
  | cons p fs2 =>
    rw [hfs] at hfuel
    obtain ⟨t, ht⟩ := renderMembers_head p fs2
    rw [ht]
    simp only [List.cons_append]
    rw [parseValue]
    rw [show skipWs (123 :: (34 :: (t ++ 125 :: rest))) =
      123 :: (34 :: (t ++ 125 :: rest)) from by simp [skipWs, isWs]]
    change (match skipWs (34 :: (t ++ 125 :: rest)) with
      | 125 :: r2 => some (JSON.obj [], r2)
      | r2 => parseMembers g [] r2) = _
    rw [show skipWs (34 :: (t ++ 125 :: rest)) = 34 :: (t ++ 125 :: rest) from by
      simp [skipWs, isWs]]
    change parseMembers g [] (34 :: (t ++ 125 :: rest)) = _
    rw [show (34 : Nat) :: (t ++ 125 :: rest) = (34 :: t) ++ 125 :: rest from rfl, ← ht]
    rw [parseMembers_render (p :: fs2) g [] rest (by simp at hfuel ⊢; omega)
      (by rw [← hfs]; exact fieldsOf_clean k) (by simp)]
    simp

theorem parseJSONTop_marshal (k : PublicKeyJWK) :
    parseJSONTop (marshalJWK k) = some (.obj ((fieldsOf k).map fun p => (p.1, JSON.str p.2))) := by
  unfold parseJSONTop
  have hlen : (fieldsOf k).length + 2 ≤ 2 * (marshalJWK k).length + 2 := by
    have h1 := renderMembers_len (fieldsOf k)
    have h2 : (renderMembers (fieldsOf k)).length + 2 = (marshalJWK k).length := by
      simp [marshalJWK]
    omega
  rw [show marshalJWK k = marshalJWK k ++ [] from by simp]
  rw [parseValue_marshalled k _ [] (by simpa using hlen)]
  simp [skipWs]

theorem applyMembers_append (s : PublicKeyJWK) (xs ys : List (List Nat × JSON)) :
    applyMembers s (xs ++ ys) = (applyMembers s xs).bind fun k2 => applyMembers k2 ys := by
  induction xs generalizing s with
  | nil => simp [applyMembers]
  | cons p xs ih =>
    obtain ⟨nm, v⟩ := p
    simp only [List.cons_append, applyMembers, Option.bind_eq_bind]
    cases applyMember s nm v <;> simp [ih]

theorem applyMembers_piece_kty (s : PublicKeyJWK) (v : List Nat) (h : s.kty = []) :
    applyMembers s (List.map (fun p => (p.1, JSON.str p.2))
      (if v = [] then [] else [(gs "kty", v)])) = some { s with kty := v } := by
  split
  · next hv =>
    subst hv
    cases s
    simp_all [applyMembers]
  · rfl

theorem applyMembers_piece_crv (s : PublicKeyJWK) (v : List Nat) (h : s.crv = []) :
    applyMembers s (List.map (fun p => (p.1, JSON.str p.2))
      (if v = [] then [] else [(gs "crv", v)])) = some { s with crv := v } := by
  split
  · next hv =>
    subst hv
    cases s
    simp_all [applyMembers]
  · rfl

theorem applyMembers_piece_x (s : PublicKeyJWK) (v : List Nat) (h : s.x = []) :
    applyMembers s (List.map (fun p => (p.1, JSON.str p.2))
      (if v = [] then [] else [(gs "x", v)])) = some { s with x := v } := by
  split
  · next hv =>
    subst hv
    cases s
    simp_all [applyMembers]
  · rfl

theorem applyMembers_piece_y (s : PublicKeyJWK) (v : List Nat) (h : s.y = []) :
    applyMembers s (List.map (fun p => (p.1, JSON.str p.2))
      (if v = [] then [] else [(gs "y", v)])) = some { s with y := v } := by
  split
  · next hv =>
    subst hv
    cases s
    simp_all [applyMembers]
  · rfl

theorem applyMembers_piece_n (s : PublicKeyJWK) (v : List Nat) (h : s.n = []) :
    applyMembers s (List.map (fun p => (p.1, JSON.str p.2))
      (if v = [] then [] else [(gs "n", v)])) = some { s with n := v } := by
  split
  · next hv =>
    subst hv
    cases s
    simp_all [applyMembers]
  · rfl

theorem applyMembers_piece_e (s : PublicKeyJWK) (v : List Nat) (h : s.e = []) :
    applyMembers s (List.map (fun p => (p.1, JSON.str p.2))
      (if v = [] then [] else [(gs "e", v)])) = some { s with e := v } := by
  split
  · next hv =>
    subst hv
    cases s
    simp_all [applyMembers]
  · rfl

theorem applyMembers_piece_use (s : PublicKeyJWK) (v : List Nat) (h : s.use = []) :
    applyMembers s (List.map (fun p => (p.1, JSON.str p.2))
      (if v = [] then [] else [(gs "use", v)])) = some { s with use := v } := by
  split
  · next hv =>
    subst hv
    cases s
    simp_all [applyMembers]
  · rfl

theorem applyMembers_fieldsOf (k : PublicKeyJWK) :
    applyMembers {} ((fieldsOf k).map fun p => (p.1, JSON.str p.2)) = some k := by
  obtain ⟨kty, crv, x, y, n, e, u⟩ := k
  simp only [fieldsOf, List.map_append, List.append_assoc]
  rw [applyMembers_append, applyMembers_piece_kty _ _ rfl]
  simp only [Option.some_bind]
  rw [applyMembers_append, applyMembers_piece_crv _ _ rfl]
  simp only [Option.some_bind]
  rw [applyMembers_append, applyMembers_piece_x _ _ rfl]
  simp only [Option.some_bind]
  rw [applyMembers_append, applyMembers_piece_y _ _ rfl]
  simp only [Option.some_bind]
  rw [applyMembers_append, applyMembers_piece_n _ _ rfl]
  simp only [Option.some_bind]
  rw [applyMembers_append, applyMembers_piece_e _ _ rfl]
  simp only [Option.some_bind]
  rw [applyMembers_piece_use _ _ rfl]

theorem unmarshalJWK_marshal (k : PublicKeyJWK) : unmarshalJWK (marshalJWK k) = some k := by
  unfold unmarshalJWK
  rw [parseJSONTop_marshal k]
  exact applyMembers_fieldsOf k

theorem jsonEscape_lt (v : List Nat) (h : ∀ b ∈ v, b < 256) :
    ∀ b ∈ jsonEscape v, b < 256 := by
  induction v with
  | nil => simp [jsonEscape]
  | cons b v ih =>
    intro x hx
    have hb : b < 256 := h b (by simp)
    have ih2 := ih fun c hc => h c (by simp [hc])
    simp only [jsonEscape, List.mem_append] at hx
    rcases hx with hx | hx
    · split at hx
      · simp at hx; omega
      · split at hx
        · simp at hx; omega
        · split at hx
          · have hd1 : hexDigit (b / 16) < 256 := by unfold hexDigit; split <;> omega
            have hd2 : hexDigit (b % 16) < 256 := by unfold hexDigit; split <;> omega
            simp at hx
            rcases hx with h1 | h1 | h1 | h1 | h1 | h1 <;> omega
          · simp at hx; omega
    · exact ih2 x hx

theorem fieldsOf_lt (k : PublicKeyJWK) (h : ValidJWK k) :
    ∀ p ∈ fieldsOf k, (∀ b ∈ p.1, b < 256) ∧ (∀ b ∈ p.2, b < 256) := by
  obtain ⟨h1, h2, h3, h4, h5, h6, h7⟩ := h
  intro p hp
  have := fieldsOf_sub k p hp
  simp only [List.mem_cons, List.not_mem_nil, or_false] at this
  rcases this with h | h | h | h | h | h | h <;>
    · subst h
      exact ⟨by intro b hb; revert b; dsimp only; decide, by assumption⟩

theorem renderMember_lt (p : List Nat × List Nat) (h1 : ∀ b ∈ p.1, b < 256)
    (h2 : ∀ b ∈ p.2, b < 256) : ∀ b ∈ renderMember p, b < 256 := by
  intro b hb
  simp only [renderMember, List.mem_append, List.mem_cons, List.not_mem_nil, or_false,
    List.mem_singleton] at hb
  rcases hb with (((hb | hb) | hb) | hb) | hb
  · omega
  · exact h1 b hb
  · rcases hb with hb | hb | hb <;> omega
  · exact jsonEscape_lt p.2 h2 b hb
  · omega

theorem renderMembers_lt (fs : List (List Nat × List Nat))
    (h : ∀ p ∈ fs, (∀ b ∈ p.1, b < 256) ∧ (∀ b ∈ p.2, b < 256)) :
    ∀ b ∈ renderMembers fs, b < 256 := by
  induction fs with
  | nil => simp [renderMembers]
  | cons p fs ih =>
    have hp := h p (by simp)
    cases fs with
    | nil =>
      intro b hb
      simp only [renderMembers] at hb
      exact renderMember_lt p hp.1 hp.2 b hb
    | cons q fs2 =>
      intro b hb
      simp only [renderMembers, List.mem_append, List.mem_cons, List.not_mem_nil,
        or_false, List.mem_singleton] at hb
      rcases hb with (hb | hb) | hb
      · exact renderMember_lt p hp.1 hp.2 b hb
      · omega
      · exact ih (fun x hx => h x (by simp [hx])) b (by simpa [renderMembers] using hb)

theorem marshalJWK_lt (k : PublicKeyJWK) (h : ValidJWK k) :
    ∀ b ∈ marshalJWK k, b < 256 := by
  intro b hb
  simp only [marshalJWK, List.mem_append, List.mem_cons, List.not_mem_nil, or_false,
    List.mem_singleton] at hb
  rcases hb with (hb | hb) | hb
  · omega
  · exact renderMembers_lt (fieldsOf k) (fieldsOf_lt k h) b hb
  · omega

theorem decodeKey_create (k : PublicKeyJWK) (h : ValidJWK k) :
    decodeKey (CreateDIDJWK k) = some k := by
  unfold decodeKey CreateDIDJWK Suffix
  rw [cutPre_append]
  simp only [Option.bind_eq_bind, Option.some_bind]
  rw [b64_roundtrip _ (marshalJWK_lt k h)]
  simp only [Option.some_bind]
  exact unmarshalJWK_marshal k

theorem suffix_hasPre (d : DIDJWK) (s : List Nat) (h : Suffix d = some s) :
    hasPre JWKPrefix d = true := by
  unfold Suffix at h
  have hsplit := cutPre_split JWKPrefix (gs ":") d
  rw [h] at hsplit
  unfold hasPre
  cases hc : cutPre JWKPrefix d with
  | none => rw [hc] at hsplit; simp at hsplit
  | some t => simp

theorem expand_of_decodeKey (d : DIDJWK) (k : PublicKeyJWK) (h : decodeKey d = some k) :
    Expand d = .ok (buildDoc d k) := by
  unfold decodeKey at h
  cases hs : Suffix d with
  | none => rw [hs] at h; simp at h
  | some s =>
    rw [hs] at h
    simp only [Option.bind_eq_bind, Option.some_bind] at h
    cases hb : b64Decode s with
    | none => rw [hb] at h; simp at h
    | some bs =>
      rw [hb] at h
      simp only [Option.some_bind] at h
      unfold Expand
      simp [suffix_hasPre d s hs, hs, hb, h]

theorem expand_gate1 (d : DIDJWK) (hp : hasPre JWKPrefix d = false) :
    Expand d = .error (.invalidPre d) := by
  unfold Expand
  rw [if_pos hp]

theorem expand_gate2 (d : DIDJWK) (hp : hasPre JWKPrefix d = true) (hs : Suffix d = none) :
    Expand d = .error (.readingSuffix d) := by
  unfold Expand
  rw [if_neg (by simp [hp]), hs]

theorem expand_gate3 (d : DIDJWK) (s : List Nat) (hs : Suffix d = some s)
    (hb : b64Decode s = none) : Expand d = .error (.decodingDIDJWK d) := by
  unfold Expand
  rw [if_neg (by simp [suffix_hasPre d s hs]), hs]
  simp [hb]

theorem expand_gate4 (d : DIDJWK) (s bs : List Nat) (hs : Suffix d = some s)
    (hb : b64Decode s = some bs) (hu : unmarshalJWK bs = none) :
    Expand d = .error (.unmarshallingDIDJWK d) := by
  unfold Expand
  rw [if_neg (by simp [suffix_hasPre d s hs]), hs]
  simp [hb, hu]

theorem expand_ok_decodeKey (d : DIDJWK) (doc : Document) (h : Expand d = .ok doc) :
    ∃ k, decodeKey d = some k ∧ doc = buildDoc d k := by
  cases hk : decodeKey d with
  | some k =>
    have he := expand_of_decodeKey d k hk
    rw [he] at h
    simp only [Except.ok.injEq] at h
    exact ⟨k, rfl, h.symm⟩
  | none =>
    exfalso
    unfold decodeKey at hk
    by_cases hp : hasPre JWKPrefix d = false
    · rw [expand_gate1 d hp] at h; simp at h
    · have hp2 : hasPre JWKPrefix d = true := by
        revert hp; cases hasPre JWKPrefix d <;> simp
      cases hs : Suffix d with
      | none => rw [expand_gate2 d hp2 hs] at h; simp at h
      | some s =>
        rw [hs] at hk
        simp only [Option.bind_eq_bind, Option.some_bind] at hk
        cases hb : b64Decode s with
        | none => rw [expand_gate3 d s hs hb] at h; simp at h
        | some bs =>
          rw [hb] at hk
          simp only [Option.some_bind] at hk
          rw [expand_gate4 d s bs hs hb hk] at h
          simp at h


/-- C1: for every successfully decoded key object, Expand applies the
usage-hint override as a three-way decision on the key object's `use`
field: hint "sig" removes only the key-agreement list and the other four
purpose lists each hold the single reference `<identifier>#0`; hint "enc"
keeps only the key-agreement list populated and the other four are absent;
any other value or an absent field leaves all five lists populated with
that single reference. -/
theorem claim_c1_usage_hint (d : DIDJWK) (k : PublicKeyJWK) (h : decodeKey d = some k) :
    Expand d = .ok (buildDoc d k) ∧
    (k.use = gs "sig" →
      (buildDoc d k).keyAgreement = none ∧
      (buildDoc d k).authentication = some [d ++ gs "#0"] ∧
      (buildDoc d k).assertionMethod = some [d ++ gs "#0"] ∧
      (buildDoc d k).capabilityInvocation = some [d ++ gs "#0"] ∧
      (buildDoc d k).capabilityDelegation = some [d ++ gs "#0"]) ∧
    (k.use = gs "enc" →
      (buildDoc d k).keyAgreement = some [d ++ gs "#0"] ∧
      (buildDoc d k).authentication = none ∧
      (buildDoc d k).assertionMethod = none ∧
      (buildDoc d k).capabilityInvocation = none ∧
      (buildDoc d k).capabilityDelegation = none) ∧
    (k.use ≠ gs "sig" → k.use ≠ gs "enc" →
      (buildDoc d k).keyAgreement = some [d ++ gs "#0"] ∧
      (buildDoc d k).authentication = some [d ++ gs "#0"] ∧
      (buildDoc d k).assertionMethod = some [d ++ gs "#0"] ∧
      (buildDoc d k).capabilityInvocation = some [d ++ gs "#0"] ∧
      (buildDoc d k).capabilityDelegation = some [d ++ gs "#0"]) := by
  refine ⟨expand_of_decodeKey d k h, ?_, ?_, ?_⟩
  · intro hu
    simp [buildDoc, hu]
  · intro hu
    simp [buildDoc, hu, show ¬ (gs "enc" = gs "sig") from by decide]
  · intro h1 h2
    simp [buildDoc, h1, h2]

/-- C1 witness: the identifier encoding `\x7b"use":"sig"\x7d` decodes, and its
expanded document drops exactly the key-agreement list. -/
theorem claim_c1_usage_hint_witness :
    (buildDoc (CreateDIDJWK { use := gs "sig" }) { use := gs "sig" }).keyAgreement = none ∧
    (buildDoc (CreateDIDJWK { use := gs "sig" }) { use := gs "sig" }).authentication =
      some [CreateDIDJWK { use := gs "sig" } ++ gs "#0"] :=
  ⟨((claim_c1_usage_hint (CreateDIDJWK { use := gs "sig" }) { use := gs "sig" }
      (by decide)).2.1 rfl).1,
   ((claim_c1_usage_hint (CreateDIDJWK { use := gs "sig" }) { use := gs "sig" }
      (by decide)).2.1 rfl).2.1⟩

/-- C2: for every valid public-key object (one whose fields are genuine
byte strings, so its JSON serialization succeeds and is lossless), decoding
the identifier produced by encoding it yields the same key object, and the
key embedded in the expanded document equals it. -/
theorem claim_c2_roundtrip (k : PublicKeyJWK) (h : ValidJWK k) :
    decodeKey (CreateDIDJWK k) = some k ∧
    Expand (CreateDIDJWK k) = .ok (buildDoc (CreateDIDJWK k) k) ∧
    (buildDoc (CreateDIDJWK k) k).verificationMethod.map VerificationMethod.publicKeyJWK =
      [k] := by
  have hd := decodeKey_create k h
  refine ⟨hd, expand_of_decodeKey _ _ hd, ?_⟩
  unfold buildDoc
  split_ifs <;> rfl

/-- C2 witness: a concrete Ed25519-shaped key object round-trips. -/
theorem claim_c2_roundtrip_witness :
    decodeKey (CreateDIDJWK { kty := gs "OKP", crv := gs "Ed25519", x := gs "abc" }) =
      some { kty := gs "OKP", crv := gs "Ed25519", x := gs "abc" } :=
  (claim_c2_roundtrip { kty := gs "OKP", crv := gs "Ed25519", x := gs "abc" }
    (by decide)).1

/-- C3: for every identifier that decodes successfully, the expanded
document has id equal to the identifier, exactly one verification method
(id = identifier ++ "#0", the JsonWebKey2020 type tag, controller = the
identifier, the decoded key embedded directly), and the context list is the
standard DID context followed by the JWS 2020 context, in that order. -/
theorem claim_c3_document_shape (d : DIDJWK) (k : PublicKeyJWK) (h : decodeKey d = some k) :
    Expand d = .ok (buildDoc d k) ∧
    (buildDoc d k).id = d ∧
    (buildDoc d k).verificationMethod =
      [{ id := d ++ gs "#0", type := JSONWebKey2020Type, controller := d,
         publicKeyJWK := k }] ∧
    (buildDoc d k).context = [KnownDIDContext, JWS2020Context] := by
  refine ⟨expand_of_decodeKey d k h, ?_, ?_, ?_⟩ <;>
    · unfold buildDoc
      split_ifs <;> rfl

/-- C3 witness: the shape at the identifier of the empty key object. -/
theorem claim_c3_document_shape_witness :
    (buildDoc (gs "did:jwk:e30") {}).id = gs "did:jwk:e30" ∧
    (buildDoc (gs "did:jwk:e30") {}).context = [KnownDIDContext, JWS2020Context] :=
  ⟨(claim_c3_document_shape (gs "did:jwk:e30") {} (by decide)).2.1,
   (claim_c3_document_shape (gs "did:jwk:e30") {} (by decide)).2.2.2⟩

/-- C4: decoding proceeds through four hard gates - scheme token present,
colon separator and payload present, well-formed base64url, well-formed
JSON for the key-object shape - and a failure at any stage returns the
distinct error of that stage; a success passes every gate and builds the
full document; an error never coexists with a result. -/
theorem claim_c4_gates (d : DIDJWK) :
    (hasPre JWKPrefix d = false → Expand d = .error (.invalidPre d)) ∧
    (hasPre JWKPrefix d = true → Suffix d = none → Expand d = .error (.readingSuffix d)) ∧
    (∀ s, Suffix d = some s → b64Decode s = none → Expand d = .error (.decodingDIDJWK d)) ∧
    (∀ s bs, Suffix d = some s → b64Decode s = some bs → unmarshalJWK bs = none →
      Expand d = .error (.unmarshallingDIDJWK d)) ∧
    (∀ doc, Expand d = .ok doc → ∃ k, decodeKey d = some k ∧ doc = buildDoc d k) ∧
    (∀ e doc, Expand d = .error e → Expand d ≠ .ok doc) ∧
    (JWKError.invalidPre d ≠ .readingSuffix d ∧
     JWKError.invalidPre d ≠ .decodingDIDJWK d ∧
     JWKError.invalidPre d ≠ .unmarshallingDIDJWK d ∧
     JWKError.readingSuffix d ≠ .decodingDIDJWK d ∧
     JWKError.readingSuffix d ≠ .unmarshallingDIDJWK d ∧
     JWKError.decodingDIDJWK d ≠ .unmarshallingDIDJWK d) := by
  refine ⟨expand_gate1 d, expand_gate2 d, expand_gate3 d, expand_gate4 d,
    expand_ok_decodeKey d, ?_, by simp, by simp, by simp, by simp, by simp, by simp⟩
  intro e2 doc he
  rw [he]
  simp

/-- C4 witness: one concrete rejected input per gate, with the stage's own
error. -/
theorem claim_c4_gates_witness :
    Expand (gs "notdid") = .error (.invalidPre (gs "notdid")) ∧
    Expand (gs "did:jwk") = .error (.readingSuffix (gs "did:jwk")) ∧
    Expand (gs "did:jwk:!") = .error (.decodingDIDJWK (gs "did:jwk:!")) ∧
    Expand (gs "did:jwk:bm90anNvbg") = .error (.unmarshallingDIDJWK (gs "did:jwk:bm90anNvbg")) :=
  ⟨(claim_c4_gates (gs "notdid")).1 (by decide),
   (claim_c4_gates (gs "did:jwk")).2.1 (by decide) (by decide),
   (claim_c4_gates (gs "did:jwk:!")).2.2.1 (gs "!") (by decide) (by decide),
   (claim_c4_gates (gs "did:jwk:bm90anNvbg")).2.2.2.1 (gs "bm90anNvbg") (gs "notjson")
     (by decide) (by decide) (by decide)⟩

/-- C5: IsSupported holds exactly on the fixed seven-member allow-list
(Ed25519, X25519, secp256k1, P-256, P-384, P-521, RSA), and a generation
request outside it fails with the unsupported-type error no matter what
the key-generation collaborators would do - they are never consulted. -/
theorem claim_c5_allowlist (kt : List Nat) :
    (isSupportedJWKType kt = true ↔ kt ∈ GetSupportedDIDJWKTypes) ∧
    GetSupportedDIDJWKTypes = [Ed25519, X25519, SECP256k1, P256, P384, P521, RSA] ∧
    GetSupportedDIDJWKTypes.length = 7 ∧
    (∀ (Pub Priv E : Type) (genKey : List Nat → Except E (Pub × Priv))
      (toJWK : Pub → Except E PublicKeyJWK), isSupportedJWKType kt = false →
      GenerateDIDJWK genKey toJWK kt = .error (.unsupportedType kt)) := by
  refine ⟨?_, rfl, rfl, ?_⟩
  · simp [isSupportedJWKType, List.any_eq_true]
  · intro Pub Priv E genKey toJWK hk
    unfold GenerateDIDJWK
    rw [if_pos hk]

/-- C5 witness: a tag outside the allow-list is rejected before the
collaborators run. -/
theorem claim_c5_allowlist_witness :
    GenerateDIDJWK (fun _ => (Except.error () : Except Unit (Unit × Unit)))
      (fun _ => Except.error ()) (gs "BadKeyType") =
      .error (.unsupportedType (gs "BadKeyType")) :=
  (claim_c5_allowlist (gs "BadKeyType")).2.2.2 Unit Unit Unit _ _ (by decide)

/-- C6: the resolver reports exactly one method tag, and Resolve returns
the expanded document wrapped in a ResolutionResult on success and the
wrapped expansion error with no result on failure. -/
theorem claim_c6_resolver (did : List Nat) :
    Methods = [JWKMethod] ∧ Methods.length = 1 ∧
    (∀ doc, Expand did = .ok doc → Resolve did = .ok { document := doc }) ∧
    (∀ e, Expand did = .error e → Resolve did = .error (.expandingDIDJWK e)) := by
  refine ⟨rfl, rfl, ?_, ?_⟩
  · intro doc h
    simp [Resolve, h]
  · intro e2 h
    simp [Resolve, h]

/-- C6 witness: resolution of the empty-object identifier succeeds and
resolution of a malformed identifier fails with the wrapped error. -/
theorem claim_c6_resolver_witness :
    Resolve (gs "did:jwk:e30") = .ok { document := buildDoc (gs "did:jwk:e30") {} } ∧
    Resolve (gs "nope") = .error (.expandingDIDJWK (.invalidPre (gs "nope"))) :=
  ⟨(claim_c6_resolver (gs "did:jwk:e30")).2.2.1 (buildDoc (gs "did:jwk:e30") {}) rfl,
   (claim_c6_resolver (gs "nope")).2.2.2 (.invalidPre (gs "nope")) rfl⟩

/-- C7: validity is semantic: IsValid holds exactly when the whole decode
and expand pipeline succeeds. -/
theorem claim_c7_isvalid (d : DIDJWK) :
    IsValid d = true ↔ ∃ k, decodeKey d = some k ∧ Expand d = .ok (buildDoc d k) := by
  constructor
  · intro h
    unfold IsValid at h
    cases he : Expand d with
    | error e2 => rw [he] at h; simp at h
    | ok doc =>
      obtain ⟨k, hk, hd⟩ := expand_ok_decodeKey d doc he
      exact ⟨k, hk, by rw [hd]⟩
  · rintro ⟨k, hk, he⟩
    unfold IsValid
    rw [he]

/-- C8: given a successful decode, expansion cannot fail and its result is
a pure function of the identifier and the decoded key object alone, so two
runs return structurally identical documents. -/
theorem claim_c8_expansion_total (d : DIDJWK) (k : PublicKeyJWK)
    (h : decodeKey d = some k) :
    Expand d = .ok (buildDoc d k) ∧
    (∀ doc1 doc2, Expand d = .ok doc1 → Expand d = .ok doc2 → doc1 = doc2) := by
  refine ⟨expand_of_decodeKey d k h, ?_⟩
  intro doc1 doc2 h1 h2
  rw [h1] at h2
  simpa using h2

/-- C8 witness: the empty-object identifier decodes, so its expansion is
the fixed document. -/
theorem claim_c8_expansion_total_witness :
    Expand (gs "did:jwk:e30") = .ok (buildDoc (gs "did:jwk:e30") {}) :=
  (claim_c8_expansion_total (gs "did:jwk:e30") {} (by decide)).1

/-- C9: the allow-list is enforced only on the generation path: encoding
any well-formed key object succeeds and the result decodes and expands,
with no key-type check anywhere in CreateDIDJWK or Expand. -/
theorem claim_c9_create_unchecked (k : PublicKeyJWK) (h : ValidJWK k) :
    decodeKey (CreateDIDJWK k) = some k ∧
    Expand (CreateDIDJWK k) = .ok (buildDoc (CreateDIDJWK k) k) := by
  have hd := decodeKey_create k h
  exact ⟨hd, expand_of_decodeKey _ _ hd⟩

/-- C9 witness: a key object whose type tag is far outside the allow-list
still encodes, decodes and expands. -/
theorem claim_c9_create_unchecked_witness :
    isSupportedJWKType (gs "NotARealKeyType") = false ∧
    decodeKey (CreateDIDJWK { kty := gs "NotARealKeyType" }) =
      some { kty := gs "NotARealKeyType" } :=
  ⟨by decide, (claim_c9_create_unchecked { kty := gs "NotARealKeyType" } (by decide)).1⟩

/-- C10: decoding imposes nothing beyond JSON well-formedness: the
identifier whose payload is the empty JSON object (did:jwk:e30) expands to
the full document around the zero-valued key object with every field
empty. -/
theorem claim_c10_empty_object :
    decodeKey (gs "did:jwk:e30") =
      some { kty := [], crv := [], x := [], y := [], n := [], e := [], use := [] } ∧
    Expand (gs "did:jwk:e30") =
      .ok { context := [KnownDIDContext, JWS2020Context]
            id := gs "did:jwk:e30"
            verificationMethod := [{ id := gs "did:jwk:e30" ++ gs "#0",
                                     type := JSONWebKey2020Type,
                                     controller := gs "did:jwk:e30",
                                     publicKeyJWK := { kty := [], crv := [], x := [],
                                                       y := [], n := [], e := [],
                                                       use := [] } }]
            authentication := some [gs "did:jwk:e30" ++ gs "#0"]
            assertionMethod := some [gs "did:jwk:e30" ++ gs "#0"]
            keyAgreement := some [gs "did:jwk:e30" ++ gs "#0"]
            capabilityInvocation := some [gs "did:jwk:e30" ++ gs "#0"]
            capabilityDelegation := some [gs "did:jwk:e30" ++ gs "#0"] } :=
  ⟨rfl, rfl⟩

end DidJwk
